import Mathlib

/-!
Verification of the `programming-for-performance` exercise-0 template:
the unbalanced binary search tree set (`include/binary_tree.hpp`) and the
operation-replay engine (`run_ops` in `query.cpp`), shallowly embedded in
Lean 4.  The C++ `dtype` is instantiated at `int` throughout the program,
which we model as unbounded `Int` (all values in the claims are tiny, far
from 32-bit overflow).
-/

namespace pfp

/--
A `node*` field of the C++ tree: either `nullptr` or a heap node carrying
`val`, a left child pointer and a right child pointer
(`binary_tree<dtype>::node`, binary_tree.hpp lines 177-217).
-/
inductive NodePtr where
  | null : NodePtr
  | node (val : Int) (left : NodePtr) (right : NodePtr) : NodePtr
deriving DecidableEq, Repr

/--
`node::insert` (binary_tree.hpp lines 226-251).  The C++ method tests
`right == nullptr` and allocates `new node(value)` in place; here that
allocation is the `null` case of the same recursion, so one equation covers
both the `new node(value)` branch and the `right->insert(value)` branch.
The guard order is exactly the source's: first `val == value` (no-op),
then `value > val` (go right), else go left.
-/
def NodePtr.insert : NodePtr → Int → NodePtr
  | NodePtr.null, value => NodePtr.node value NodePtr.null NodePtr.null
  | NodePtr.node val left right, value =>
    if val = value then NodePtr.node val left right
    else if value > val then NodePtr.node val left (NodePtr.insert right value)
    else NodePtr.node val (NodePtr.insert left value) right

/--
`node::query` (binary_tree.hpp lines 259-270): equal → found; greater →
descend right (`right != nullptr ? right->query(value) : false` is the
`null` case of the recursion); otherwise descend left.
-/
def NodePtr.query : NodePtr → Int → Bool
  | NodePtr.null, _ => false
  | NodePtr.node val left right, value =>
    if value = val then true
    else if value > val then NodePtr.query right value
    else NodePtr.query left value

/-- The `binary_tree` class (binary_tree.hpp lines 57-167): owns one root pointer. -/
structure binary_tree where
  root : NodePtr
deriving DecidableEq, Repr

/-- The default constructor `binary_tree()`: `root = nullptr`. -/
def binary_tree.empty : binary_tree := ⟨NodePtr.null⟩

/--
`binary_tree::insert` (binary_tree.hpp lines 125-150):
`if (root == nullptr) root = new node(value); else root->insert(value);`.
-/
def binary_tree.insert (t : binary_tree) (value : Int) : binary_tree :=
  match t.root with
  | NodePtr.null => ⟨NodePtr.node value NodePtr.null NodePtr.null⟩
  | r => ⟨NodePtr.insert r value⟩

/--
`binary_tree::count` (binary_tree.hpp lines 164-166):
`return root != nullptr ? root->query(value) : false;`.  The C++ return type
is `int` holding the bool `0`/`1`; we keep it as `Bool`.
-/
def binary_tree.count (t : binary_tree) (value : Int) : Bool :=
  match t.root with
  | NodePtr.null => false
  | r => NodePtr.query r value

/-- Replay a whole list of insertions, left to right, starting from `t`. -/
def binary_tree.insertAll (t : binary_tree) (vs : List Int) : binary_tree :=
  vs.foldl binary_tree.insert t

/-- In-order list of the values stored in the subtree (one entry per node). -/
def NodePtr.toList : NodePtr → List Int
  | NodePtr.null => []
  | NodePtr.node val left right => NodePtr.toList left ++ val :: NodePtr.toList right

/--
The classic BST ordering invariant, per node: everything reachable through
the left child is strictly below `val`, everything through the right child
strictly above, recursively.
-/
def NodePtr.isBST : NodePtr → Bool
  | NodePtr.null => true
  | NodePtr.node val left right =>
    (NodePtr.toList left).all (fun x => x < val) &&
    (NodePtr.toList right).all (fun x => val < x) &&
    NodePtr.isBST left && NodePtr.isBST right

/--
The order in which node destructors free values during
`~binary_tree`/`~node` teardown (binary_tree.hpp lines 81-83 and 214-217):
`delete(n)` first runs `~node`, which deletes the left subtree then the
right subtree, and only then is `n` itself released — postorder.
-/
def NodePtr.destroySeq : NodePtr → List Int
  | NodePtr.null => []
  | NodePtr.node val left right =>
    NodePtr.destroySeq left ++ NodePtr.destroySeq right ++ [val]

/- ### Basic bridging lemmas between `binary_tree` and `NodePtr` -/

theorem binary_tree.insert_root (t : binary_tree) (v : Int) :
    t.insert v = ⟨NodePtr.insert t.root v⟩ := by
  cases t with
  | mk root => cases root <;> rfl

theorem binary_tree.count_root (t : binary_tree) (v : Int) :
    t.count v = NodePtr.query t.root v := by
  cases t with
  | mk root => cases root <;> rfl

/- ### Membership after insertion -/

/-- `query` after `insert` finds exactly the new value plus whatever was found before. -/
theorem NodePtr.query_insert (t : NodePtr) (v w : Int) :
    NodePtr.query (NodePtr.insert t v) w = (decide (w = v) || NodePtr.query t w) := by
  induction t with
  | null =>
    by_cases h : w = v <;> simp [NodePtr.insert, NodePtr.query, h]
  | node val l r ihl ihr =>
    by_cases hv : val = v
    · subst hv
      by_cases hw : w = val <;>
        simp [NodePtr.insert, NodePtr.query, hw]
    · by_cases hgt : v > val
      · have hins : NodePtr.insert (NodePtr.node val l r) v =
            NodePtr.node val l (NodePtr.insert r v) := by
          simp [NodePtr.insert, hv, hgt]
        rw [hins]
        by_cases hw : w = val
        · simp [NodePtr.query, hw]
        · by_cases hwgt : w > val
          · simp [NodePtr.query, hw, hwgt, ihr]
          · have hne : w ≠ v := by omega
            simp [NodePtr.query, hw, hwgt, hne]
      · have hins : NodePtr.insert (NodePtr.node val l r) v =
            NodePtr.node val (NodePtr.insert l v) r := by
          simp [NodePtr.insert, hv, hgt]
        rw [hins]
        by_cases hw : w = val
        · simp [NodePtr.query, hw]
        · by_cases hwgt : w > val
          · have hne : w ≠ v := by omega
            simp [NodePtr.query, hw, hwgt, hne]
          · simp [NodePtr.query, hw, hwgt, ihl]

/-- `count` on a tree built by a fold of insertions is membership in the list. -/
theorem binary_tree.count_insertAll (t : binary_tree) (vs : List Int) (w : Int) :
    (t.insertAll vs).count w = true ↔ w ∈ vs ∨ t.count w = true := by
  induction vs generalizing t with
  | nil => simp [binary_tree.insertAll]
  | cons v rest ih =>
    have step : (t.insert v).insertAll rest = t.insertAll (v :: rest) := rfl
    rw [binary_tree.insertAll] at step ⊢
    simp only [List.foldl_cons]
    rw [← binary_tree.insertAll, ih]
    rw [binary_tree.count_root, binary_tree.insert_root]
    simp only [NodePtr.query_insert, ← binary_tree.count_root]
    simp only [Bool.or_eq_true, decide_eq_true_eq, List.mem_cons]
    tauto

/- ### Stored values after insertion -/

/-- The values stored after an insertion are the inserted value plus the old ones. -/
theorem NodePtr.mem_toList_insert (t : NodePtr) (v x : Int) :
    x ∈ (NodePtr.insert t v).toList ↔ x = v ∨ x ∈ t.toList := by
  induction t with
  | null => simp [NodePtr.insert, NodePtr.toList]
  | node val l r ihl ihr =>
    by_cases hv : val = v
    · subst hv
      simp only [NodePtr.insert, if_pos rfl]
      constructor
      · exact Or.inr
      · rintro (h | h)
        · subst h; simp [NodePtr.toList]
        · exact h
    · by_cases hgt : v > val
      · have hins : NodePtr.insert (NodePtr.node val l r) v =
            NodePtr.node val l (NodePtr.insert r v) := by
          simp [NodePtr.insert, hv, hgt]
        rw [hins]
        simp only [NodePtr.toList, List.mem_append, List.mem_cons, ihr]
        tauto
      · have hins : NodePtr.insert (NodePtr.node val l r) v =
            NodePtr.node val (NodePtr.insert l v) r := by
          simp [NodePtr.insert, hv, hgt]
        rw [hins]
        simp only [NodePtr.toList, List.mem_append, List.mem_cons, ihl]
        tauto

/-- Inserting a value keeps every per-node ordering bound that the value itself meets. -/
theorem NodePtr.insert_preserves_isBST (t : NodePtr) (v : Int) :
    NodePtr.isBST t = true → NodePtr.isBST (NodePtr.insert t v) = true := by
  induction t with
  | null => intro _; simp [NodePtr.insert, NodePtr.isBST, NodePtr.toList]
  | node val l r ihl ihr =>
    intro h
    simp only [NodePtr.isBST, Bool.and_eq_true, List.all_eq_true, decide_eq_true_eq] at h
    obtain ⟨⟨⟨hl, hr⟩, hbl⟩, hbr⟩ := h
    by_cases hv : val = v
    · subst hv
      simp only [NodePtr.insert, if_pos rfl]
      simp only [NodePtr.isBST, Bool.and_eq_true, List.all_eq_true, decide_eq_true_eq]
      exact ⟨⟨⟨hl, hr⟩, hbl⟩, hbr⟩
    · by_cases hgt : v > val
      · have hins : NodePtr.insert (NodePtr.node val l r) v =
            NodePtr.node val l (NodePtr.insert r v) := by
          simp [NodePtr.insert, hv, hgt]
        rw [hins]
        simp only [NodePtr.isBST, Bool.and_eq_true, List.all_eq_true, decide_eq_true_eq]
        refine ⟨⟨⟨hl, ?_⟩, hbl⟩, ihr hbr⟩
        intro x hx
        rcases (NodePtr.mem_toList_insert r v x).mp hx with h | h
        · omega
        · exact hr x h
      · have hlt : v < val := by omega
        have hins : NodePtr.insert (NodePtr.node val l r) v =
            NodePtr.node val (NodePtr.insert l v) r := by
          simp [NodePtr.insert, hv, hgt]
        rw [hins]
        simp only [NodePtr.isBST, Bool.and_eq_true, List.all_eq_true, decide_eq_true_eq]
        refine ⟨⟨⟨?_, hr⟩, ihl hbl⟩, hbr⟩
        intro x hx
        rcases (NodePtr.mem_toList_insert l v x).mp hx with h | h
        · omega
        · exact hl x h

/-- On a tree satisfying the invariant, the stored values are strictly sorted in order. -/
theorem NodePtr.isBST_sorted (t : NodePtr) :
    NodePtr.isBST t = true → t.toList.Pairwise (· < ·) := by
  induction t with
  | null => intro _; simp [NodePtr.toList]
  | node val l r ihl ihr =>
    intro h
    simp only [NodePtr.isBST, Bool.and_eq_true, List.all_eq_true, decide_eq_true_eq] at h
    obtain ⟨⟨⟨hl, hr⟩, hbl⟩, hbr⟩ := h
    simp only [NodePtr.toList]
    rw [List.pairwise_append]
    refine ⟨ihl hbl, ?_, ?_⟩
    · rw [List.pairwise_cons]
      exact ⟨hr, ihr hbr⟩
    · intro x hx y hy
      rcases List.mem_cons.mp hy with h | h
      · subst h; exact hl x hx
      · exact lt_trans (hl x hx) (hr y h)

/-- On a tree satisfying the invariant, no value is stored in more than one node. -/
theorem NodePtr.isBST_nodup (t : NodePtr) :
    NodePtr.isBST t = true → t.toList.Nodup :=
  fun h => (NodePtr.isBST_sorted t h).imp ne_of_lt

/-- Every tree built by a fold of insertions from `t` keeps the invariant. -/
theorem binary_tree.insertAll_isBST (t : binary_tree) (vs : List Int) :
    NodePtr.isBST t.root = true → NodePtr.isBST (t.insertAll vs).root = true := by
  induction vs generalizing t with
  | nil => intro h; exact h
  | cons v rest ih =>
    intro h
    rw [binary_tree.insertAll, List.foldl_cons, ← binary_tree.insertAll]
    apply ih
    rw [binary_tree.insert_root]
    exact NodePtr.insert_preserves_isBST t.root v h

/-- Stored values of a tree built by a fold are the inserted ones plus the old ones. -/
theorem binary_tree.mem_toList_insertAll (t : binary_tree) (vs : List Int) (x : Int) :
    x ∈ (t.insertAll vs).root.toList ↔ x ∈ vs ∨ x ∈ t.root.toList := by
  induction vs generalizing t with
  | nil => simp [binary_tree.insertAll]
  | cons v rest ih =>
    rw [binary_tree.insertAll, List.foldl_cons, ← binary_tree.insertAll, ih,
      binary_tree.insert_root]
    simp only [NodePtr.mem_toList_insert, List.mem_cons]
    tauto

/- ### Teardown order -/

/-- The teardown releases the same multiset of values that the tree stores. -/
theorem NodePtr.destroySeq_perm_toList (t : NodePtr) :
    t.destroySeq.Perm t.toList := by
  induction t with
  | null => simp [NodePtr.destroySeq, NodePtr.toList]
  | node val l r ihl ihr =>
    simp only [NodePtr.destroySeq, NodePtr.toList]
    have h1 : (NodePtr.destroySeq l ++ NodePtr.destroySeq r ++ [val]).Perm
        (NodePtr.toList l ++ NodePtr.toList r ++ [val]) :=
      (ihl.append ihr).append (List.Perm.refl _)
    have h2 : (NodePtr.toList l ++ NodePtr.toList r ++ [val]).Perm
        (NodePtr.toList l ++ (val :: NodePtr.toList r)) := by
      rw [List.append_assoc]
      exact List.Perm.append_left _ (List.perm_append_singleton _ _)
    exact h1.trans h2

/- ### The input stream (`std::istream` restricted to what `run_ops` uses) -/

/--
Model of the `std::istream` the replay reads from: the characters not yet
consumed plus the `failbit` and `eofbit` state flags.  `badbit` (hard I/O
failure) never arises in this program and is not modelled.
-/
structure IStream where
  data : List Char
  failbit : Bool
  eofbit : Bool
deriving DecidableEq, Repr

/-- A fresh, good stream holding the characters of `s`. -/
def IStream.ofString (s : String) : IStream := ⟨s.toList, false, false⟩

/-- `std::ios::good()`: no failbit, no eofbit (badbit not modelled). -/
def IStream.good (s : IStream) : Bool := !s.failbit && !s.eofbit

/-- The six whitespace characters of the default "C" locale that `operator>>` skips. -/
def isSpace (c : Char) : Bool :=
  c = ' ' || c = '\t' || c = '\n' || c = '\x0b' || c = '\x0c' || c = '\r'

/-- Consume leading whitespace. -/
def dropSpaces : List Char → List Char
  | [] => []
  | c :: cs => if isSpace c then dropSpaces cs else c :: cs

/-- Consume a maximal run of decimal digits, accumulating their value. -/
def digitsVal (acc : Nat) : List Char → Nat × List Char
  | [] => (acc, [])
  | c :: cs =>
    if c.isDigit then digitsVal (10 * acc + (c.toNat - '0'.toNat)) cs
    else (acc, c :: cs)

/--
The digit part of an `int` extraction, after an optional sign (negative iff
`neg`): at least one decimal digit yields the value, with `eofbit` set iff
the digits ran to the very end of the stream; no digit sets `failbit`
(plus `eofbit` when the end of the stream was reached), with the extracted
value being 0 as specified since C++11.
-/
def parseBody (neg : Bool) : List Char → Int × IStream
  | [] => (0, ⟨[], true, true⟩)
  | d :: ds =>
    if d.isDigit then
      let p := digitsVal 0 (d :: ds)
      ((if neg then -(p.1 : Int) else (p.1 : Int)), ⟨p.2, false, p.2.isEmpty⟩)
    else (0, ⟨d :: ds, true, false⟩)

/-- A whitespace-stripped token: an optional `-`/`+` sign, then `parseBody`. -/
def parseToken : List Char → Int × IStream
  | [] => (0, ⟨[], true, true⟩)
  | c :: cs =>
    if c = '-' then parseBody true cs
    else if c = '+' then parseBody false cs
    else parseBody false (c :: cs)

/--
`in >> val` for `int` (the only extraction `run_ops` performs): extraction
from an already failed or exhausted stream fails immediately; otherwise skip
whitespace and parse a signed decimal token.  The 32-bit overflow clamping
of `num_get` is not modelled: the program's inputs are small.
-/
def extractInt (s : IStream) : Int × IStream :=
  if s.failbit || s.eofbit then (0, ⟨s.data, true, s.eofbit⟩)
  else parseToken (dropSpaces s.data)

theorem dropSpaces_length_le (l : List Char) : (dropSpaces l).length ≤ l.length := by
  induction l with
  | nil => simp [dropSpaces]
  | cons c cs ih =>
    rw [dropSpaces]
    split
    · exact le_trans ih (Nat.le_succ _)
    · exact le_refl _

theorem digitsVal_length_le (acc : Nat) (l : List Char) :
    (digitsVal acc l).2.length ≤ l.length := by
  induction l generalizing acc with
  | nil => simp [digitsVal]
  | cons c cs ih =>
    rw [digitsVal]
    split
    · exact le_trans (ih _) (Nat.le_succ _)
    · exact le_refl _

theorem parseBody_good_lt (neg : Bool) (l : List Char) :
    (parseBody neg l).2.good = true → (parseBody neg l).2.data.length < l.length := by
  intro h
  cases l with
  | nil => simp [parseBody, IStream.good] at h
  | cons d ds =>
    by_cases hdig : d.isDigit
    · have h1 : (digitsVal 0 (d :: ds)).2.length ≤ ds.length := by
        rw [digitsVal, if_pos hdig]
        exact digitsVal_length_le _ ds
      have h2 : (parseBody neg (d :: ds)).2.data = (digitsVal 0 (d :: ds)).2 := by
        rw [parseBody, if_pos hdig]
      rw [h2, List.length_cons]
      omega
    · exfalso
      have h2 : (parseBody neg (d :: ds)).2.good = false := by
        rw [parseBody, if_neg hdig]
        rfl
      rw [h2] at h
      exact Bool.false_ne_true h

theorem parseToken_good_lt (l : List Char) :
    (parseToken l).2.good = true → (parseToken l).2.data.length < l.length := by
  intro h
  cases l with
  | nil => simp [parseToken, IStream.good] at h
  | cons c cs =>
    by_cases h1 : c = '-'
    · rw [parseToken, if_pos h1] at h ⊢
      have := parseBody_good_lt true cs h
      rw [List.length_cons]
      omega
    · by_cases h2 : c = '+'
      · rw [parseToken, if_neg h1, if_pos h2] at h ⊢
        have := parseBody_good_lt false cs h
        rw [List.length_cons]
        omega
      · rw [parseToken, if_neg h1, if_neg h2] at h ⊢
        exact parseBody_good_lt false (c :: cs) h

/-- A read that leaves the stream good consumed at least one character. -/
theorem extractInt_good_lt (s : IStream) :
    (extractInt s).2.good = true → (extractInt s).2.data.length < s.data.length := by
  intro h
  by_cases hf : (s.failbit || s.eofbit) = true
  · rw [extractInt, if_pos hf] at h
    simp [IStream.good] at h
  · rw [extractInt, if_neg hf] at h ⊢
    exact lt_of_lt_of_le (parseToken_good_lt _ h) (dropSpaces_length_le s.data)

/- ### The operation-replay engine (`run_ops`, query.cpp lines 76-133) -/

/--
The `query_structure` template parameter of `run_ops`: any type exposing
`insert` and `count` over `int`.  `count` is modelled as the `Bool` it is
used as (`qs.count(val)` feeds a bool comparison and a `0`/`1` print).
-/
structure QS (σ : Type) where
  insert : σ → Int → σ
  count : σ → Int → Bool

/-- The `pfp::binary_tree<int>` instantiation used for type 3 (query.cpp line 171). -/
def treeQS : QS binary_tree := ⟨binary_tree.insert, binary_tree.count⟩

/--
The mutable locals of the `run_ops` loop: the structure under test `qs`,
the reference shadow set `us` (an `std::unordered_set<int>`, modelled as a
duplicate-free list observed only through membership), and the mode flag
`insert` (`true` = INSERT, `false` = QUERY).
-/
structure RunState (σ : Type) where
  qs : σ
  us : List Int
  mode : Bool
deriving DecidableEq, Repr

/-- Fresh state at the top of `run_ops`: `us` empty, `insert = true`. -/
def initState {σ : Type} (qs : σ) : RunState σ := ⟨qs, [], true⟩

/-- `std::unordered_set<int>::insert`: adds the value unless already present. -/
def usInsert (us : List Int) (v : Int) : List Int :=
  if us.contains v then us else v :: us

/-- One observable call made on the structure under test. -/
inductive Event where
  | insert (v : Int) : Event
  | count (v : Int) : Event
deriving DecidableEq, Repr

/--
Result of a replay: `normal` return from `run_ops` (carrying the final
locals, the `0`/`1` lines written to `std::cout`, and the calls made on the
structure under test, in order) or the `exit(1)` taken on a validation
mismatch (query.cpp lines 108-112), carrying the offending value and the
actual result `res`; the reported expected value is `!res`.
-/
inductive Outcome (σ : Type) where
  | normal (st : RunState σ) (out : List Bool) (tr : List Event) : Outcome σ
  | fail (out : List Bool) (tr : List Event) (val : Int) (res : Bool) : Outcome σ
deriving DecidableEq, Repr

/-- Prefix output lines and events onto an outcome (output already flushed before it). -/
def Outcome.prepend {σ : Type} (out0 : List Bool) (tr0 : List Event) :
    Outcome σ → Outcome σ
  | Outcome.normal st out tr => Outcome.normal st (out0 ++ out) (tr0 ++ tr)
  | Outcome.fail out tr v r => Outcome.fail (out0 ++ out) (tr0 ++ tr) v r

/-- Process exit status: `main` returns 0 after a normal replay; `exit(1)` on mismatch. -/
def Outcome.exitCode {σ : Type} : Outcome σ → Nat
  | Outcome.normal _ _ _ => 0
  | Outcome.fail _ _ _ _ => 1

/--
The body of the `while (true)` loop of `run_ops` for one successfully read
integer `v`, abstracted over how the remaining integers are handled (`k`,
the continuation, receives the updated locals):
  - `v ≥ 0`, INSERT mode: `qs.insert(v)`, plus `us.insert(v)` under
    validation;
  - `v ≥ 0`, QUERY mode: under validation first `qs.count(v)` and the
    mismatch check with `exit(1)`; then either the debug narration (one more
    `qs.count(v)`, nothing on the primary stream) or
    `std::cout << qs.count(v)` (one more `qs.count(v)`, one output line);
  - `v < 0`: toggle the mode flag, touching nothing else.
-/
def stepVal {σ : Type} (Q : QS σ) (debug validate : Bool) (st : RunState σ)
    (v : Int) (k : RunState σ → Outcome σ) : Outcome σ :=
  if 0 ≤ v then
    if st.mode then
      Outcome.prepend [] [Event.insert v]
        (k ⟨Q.insert st.qs v, if validate then usInsert st.us v else st.us, st.mode⟩)
    else
      if validate && (Q.count st.qs v != st.us.contains v) then
        Outcome.fail [] [Event.count v] v (Q.count st.qs v)
      else
        Outcome.prepend (if debug then [] else [Q.count st.qs v])
          ((if validate then [Event.count v] else []) ++ [Event.count v])
          (k st)
  else
    k ⟨st.qs, st.us, !st.mode⟩

/--
The `run_ops` loop at the level of the integers it acts on: replay a list
of already-read values through `stepVal`.
-/
def replay {σ : Type} (Q : QS σ) (debug validate : Bool) :
    List Int → RunState σ → Outcome σ
  | [], st => Outcome.normal st [] []
  | v :: rest, st => stepVal Q debug validate st v (replay Q debug validate rest)

/--
The `run_ops` loop itself, reading from the character stream: `in >> val`;
`if (!in.good()) return;`; then the loop body on `val`.  The C++ loop
terminates because every iteration that continues consumed at least one
character (`extractInt_good_lt`); the `fuel` argument makes that measure
explicit, and `run_ops` below supplies more fuel than the stream length, so
the 0 case is never reached.
-/
def runLoop {σ : Type} (Q : QS σ) (debug validate : Bool) :
    Nat → IStream → RunState σ → Outcome σ
  | 0, _, st => Outcome.normal st [] []
  | fuel + 1, s, st =>
    let p := extractInt s
    if !p.2.good then Outcome.normal st [] []
    else stepVal Q debug validate st p.1 (runLoop Q debug validate fuel p.2)

/--
`run_ops<query_structure, debug, validate>(qs, in)` (query.cpp lines
76-133): locals start as `us = {}`, `insert = true`, then the read loop.
-/
def run_ops {σ : Type} (Q : QS σ) (debug validate : Bool) (qs : σ)
    (s : IStream) : Outcome σ :=
  runLoop Q debug validate (s.data.length + 1) s (initState qs)

/--
The integers the loop acts on: those whose extraction leaves the stream
good.  An integer whose extraction sets `eofbit` (or a malformed token,
which sets `failbit`) stops the list.
-/
def goodIntsLoop : Nat → IStream → List Int
  | 0, _ => []
  | fuel + 1, s =>
    let p := extractInt s
    if !p.2.good then [] else p.1 :: goodIntsLoop fuel p.2

/-- `goodIntsLoop` with always-sufficient fuel. -/
def goodInts (s : IStream) : List Int := goodIntsLoop (s.data.length + 1) s

/-- The text each query writes on `std::cout`: `1` for found, `0` for not. -/
def outLines (out : List Bool) : List String :=
  out.map (fun b => if b then "1" else "0")

/-- With enough fuel, the character-level loop is the replay of the good reads. -/
theorem runLoop_eq_replay {σ : Type} (Q : QS σ) (debug validate : Bool)
    (fuel : Nat) (s : IStream) (st : RunState σ) (h : s.data.length < fuel) :
    runLoop Q debug validate fuel s st =
      replay Q debug validate (goodIntsLoop fuel s) st := by
  induction fuel generalizing s st with
  | zero => omega
  | succ n ih =>
    rw [runLoop, goodIntsLoop]
    by_cases hg : (extractInt s).2.good = true
    · have hlt : (extractInt s).2.data.length < n :=
        lt_of_lt_of_le (extractInt_good_lt s hg) (Nat.lt_succ_iff.mp h)
      simp only [hg, Bool.not_true, Bool.false_eq_true, if_false, replay]
      have hrec : ∀ st1 : RunState σ,
          runLoop Q debug validate n (extractInt s).2 st1 =
            replay Q debug validate (goodIntsLoop n (extractInt s).2) st1 :=
        fun st1 => ih (extractInt s).2 st1 hlt
      rw [stepVal, stepVal]
      by_cases h0 : (0 : Int) ≤ (extractInt s).1
      · rw [if_pos h0, if_pos h0]
        by_cases hm : st.mode
        · rw [if_pos hm, if_pos hm, hrec]
        · rw [if_neg hm, if_neg hm]
          by_cases hv : (validate &&
              (Q.count st.qs (extractInt s).1 != st.us.contains (extractInt s).1)) = true
          · rw [if_pos hv, if_pos hv]
          · rw [if_neg hv, if_neg hv, hrec]
      · rw [if_neg h0, if_neg h0, hrec]
    · have hg2 : (extractInt s).2.good = false := by
        cases hb : (extractInt s).2.good
        · rfl
        · exact absurd hb hg
      simp only [hg2, Bool.not_false, if_true, replay]

/-- `run_ops` performs exactly the good reads, in order, from the fresh locals. -/
theorem run_ops_eq_replay {σ : Type} (Q : QS σ) (debug validate : Bool)
    (qs : σ) (s : IStream) :
    run_ops Q debug validate qs s =
      replay Q debug validate (goodInts s) (initState qs) :=
  runLoop_eq_replay Q debug validate (s.data.length + 1) s (initState qs)
    (Nat.lt_succ_self _)

/-- `count` on a tree built from scratch is exactly membership in the input list. -/
theorem binary_tree.count_build_mem (vs : List Int) (w : Int) :
    (binary_tree.empty.insertAll vs).count w = true ↔ w ∈ vs := by
  have h : binary_tree.empty.count w = false := rfl
  rw [binary_tree.count_insertAll]
  simp [h]

/--
A deliberately broken structure under test: `insert` stores nothing and
`count` always answers `false`, so it answers `false` even for values that
were inserted.
-/
def brokenQS : QS Unit := ⟨fun u _ => u, fun _ _ => false⟩

/- ### The claims -/

/--
C1: the unbalanced binary search tree realizes set semantics: after any
finite sequence of insertions into an initially empty `binary_tree`,
`count v` returns true iff `v` occurs in the inserted sequence; in
particular, on an empty tree `count v` returns false for every `v`.
-/
theorem C1_tree_set_semantics (vs : List Int) (v : Int) :
    ((binary_tree.empty.insertAll vs).count v = true ↔ v ∈ vs) ∧
      binary_tree.empty.count v = false :=
  ⟨binary_tree.count_build_mem vs v, rfl⟩

/--
C2 (counterexample): on the stream holding just the token `7`, the integer
7 is successfully read — `failbit` stays clear and the extracted value is
7 — yet the replay returns having performed no insert at all (no event, an
unchanged empty tree): the read is dropped because the extraction also
reached end of stream, making `in.good()` false.
-/
theorem C2_last_read_dropped :
    (extractInt (IStream.ofString "7")).1 = 7 ∧
    (extractInt (IStream.ofString "7")).2.failbit = false ∧
    run_ops treeQS false false binary_tree.empty (IStream.ofString "7") =
      Outcome.normal (initState binary_tree.empty) [] [] :=
  ⟨rfl, rfl, rfl⟩

/--
C2 (amended): the replay terminates exactly when `in.good()` turns false —
the stream is exhausted, a non-integer token is read, or an integer's
extraction reached the end of the stream — and it performs, in order, the
action of exactly those integers whose extraction left the stream good;
an integer read by a final, end-of-stream-reaching extraction is dropped
without its action being performed.
-/
theorem C2_replay_acts_on_good_reads {σ : Type} (Q : QS σ)
    (debug validate : Bool) (qs : σ) (s : IStream) :
    run_ops Q debug validate qs s =
        replay Q debug validate (goodInts s) (initState qs) ∧
      ((extractInt s).2.good = false →
        run_ops Q debug validate qs s = Outcome.normal (initState qs) [] []) := by
  refine ⟨run_ops_eq_replay Q debug validate qs s, fun hg => ?_⟩
  rw [run_ops, runLoop]
  simp [hg]

/-- Witness for C2: instantiated on the one-token stream `7`. -/
theorem C2_replay_acts_on_good_reads_witness :
    run_ops treeQS false false binary_tree.empty (IStream.ofString "7") =
      Outcome.normal (initState binary_tree.empty) [] [] :=
  (C2_replay_acts_on_good_reads treeQS false false binary_tree.empty
    (IStream.ofString "7")).2 (by decide)

/--
C3: on the literal stream `5 3 8 -1 3 99 -1`, starting in INSERT mode with
debug and validation disabled, the engine inserts 5, 3 and 8, toggles to
QUERY mode, queries 3 then 99, and the primary output is exactly the two
lines `1` then `0`, in that order.
-/
theorem C3_literal_stream :
    run_ops treeQS false false binary_tree.empty
        (IStream.ofString "5 3 8 -1 3 99 -1") =
      Outcome.normal
        ⟨⟨NodePtr.node 5 (NodePtr.node 3 NodePtr.null NodePtr.null)
            (NodePtr.node 8 NodePtr.null NodePtr.null)⟩, [], false⟩
        [true, false]
        [Event.insert 5, Event.insert 3, Event.insert 8,
          Event.count 3, Event.count 99] ∧
    outLines [true, false] = ["1", "0"] :=
  ⟨rfl, rfl⟩

/--
C4: after every sequence of insertions into an initially empty tree, every
node satisfies the BST ordering invariant — all values reachable through
its left child strictly below its value, all through its right child
strictly above — and no value is stored in more than one node.
-/
theorem C4_bst_invariant (vs : List Int) :
    NodePtr.isBST (binary_tree.empty.insertAll vs).root = true ∧
      ((binary_tree.empty.insertAll vs).root.toList).Nodup := by
  have hb : NodePtr.isBST (binary_tree.empty.insertAll vs).root = true :=
    binary_tree.insertAll_isBST binary_tree.empty vs rfl
  exact ⟨hb, NodePtr.isBST_nodup _ hb⟩

/--
C5: insertion is idempotent: if `v` is already present in the tree built
from `vs`, inserting `v` again leaves the result of `count w` unchanged for
every value `w`.
-/
theorem C5_insert_idempotent (vs : List Int) (v w : Int)
    (h : (binary_tree.empty.insertAll vs).count v = true) :
    ((binary_tree.empty.insertAll vs).insert v).count w =
      (binary_tree.empty.insertAll vs).count w := by
  simp only [binary_tree.count_root, binary_tree.insert_root,
    NodePtr.query_insert] at h ⊢
  by_cases hw : w = v
  · subst hw
    simp [h]
  · simp [hw]

/-- Witness for C5: re-inserting 5 into the tree built from `[5]`. -/
theorem C5_insert_idempotent_witness :
    ((binary_tree.empty.insertAll [5]).insert 5).count 5 =
      (binary_tree.empty.insertAll [5]).count 5 :=
  C5_insert_idempotent [5] 5 5 (by decide)

/--
C6: membership is insertion-order independent: building the tree from an
insertion sequence and from any permutation of it yields trees on which
`count` agrees for every value.
-/
theorem C6_order_independent (vs ws : List Int) (h : vs.Perm ws) (v : Int) :
    (binary_tree.empty.insertAll vs).count v =
      (binary_tree.empty.insertAll ws).count v := by
  rw [Bool.eq_iff_iff, binary_tree.count_build_mem, binary_tree.count_build_mem]
  exact h.mem_iff

/-- Witness for C6: the sequences `[1, 2]` and `[2, 1]` agree on value 1. -/
theorem C6_order_independent_witness :
    (binary_tree.empty.insertAll [1, 2]).count 1 =
      (binary_tree.empty.insertAll [2, 1]).count 1 :=
  C6_order_independent [1, 2] [2, 1] (by decide) 1

/--
C7: each negative integer toggles the mode exactly once regardless of its
magnitude and causes no insert, query or output, so a run of `n`
consecutive negative tokens toggles the mode exactly `n` times and an
even-length run leaves the mode unchanged.
-/
theorem C7_negative_toggles {σ : Type} (Q : QS σ) (debug validate : Bool)
    (ns rest : List Int) (st : RunState σ) (h : ∀ v ∈ ns, v < 0) :
    replay Q debug validate (ns ++ rest) st =
      replay Q debug validate rest
        ⟨st.qs, st.us, if ns.length % 2 = 0 then st.mode else !st.mode⟩ := by
  induction ns generalizing st with
  | nil => simp
  | cons v ns ih =>
    have hv : v < 0 := h v (List.mem_cons_self v ns)
    have hrest : ∀ x ∈ ns, x < 0 := fun x hx => h x (List.mem_cons_of_mem v hx)
    rw [List.cons_append, replay, stepVal, if_neg (by omega)]
    rw [ih ⟨st.qs, st.us, !st.mode⟩ hrest]
    by_cases hp : ns.length % 2 = 0
    · have hp2 : ¬ (ns.length + 1) % 2 = 0 := by omega
      simp [hp, hp2]
    · have hp2 : (ns.length + 1) % 2 = 0 := by omega
      simp [hp, hp2]

/-- Witness for C7: two consecutive negative tokens leave the mode as it was. -/
theorem C7_negative_toggles_witness :
    replay treeQS false false ([-1, -2] ++ []) (initState binary_tree.empty) =
      replay treeQS false false []
        ⟨binary_tree.empty, [],
          if ([-1, -2] : List Int).length % 2 = 0 then true else !true⟩ :=
  C7_negative_toggles treeQS false false [-1, -2] [] (initState binary_tree.empty)
    (by decide)

/--
C8: in validation mode, the first query whose result under test disagrees
with the reference set aborts the whole replay at once with exit status 1,
reporting the offending value and the actual result (the reported expected
value being its negation); the broken structure that answers false for the
inserted 7 aborts on the stream `7 -1 7 -1`, while a mismatch-free run on
the same stream exits with status 0 on stream exhaustion.
-/
theorem C8_validation_abort {σ : Type} (Q : QS σ) (debug : Bool)
    (st : RunState σ) (v : Int) (rest : List Int) (h0 : 0 ≤ v)
    (hm : st.mode = false) (hne : Q.count st.qs v ≠ st.us.contains v) :
    (replay Q debug true (v :: rest) st =
        Outcome.fail [] [Event.count v] v (Q.count st.qs v) ∧
      (replay Q debug true (v :: rest) st).exitCode = 1) ∧
    run_ops brokenQS false true () (IStream.ofString "7 -1 7 -1") =
        Outcome.fail [] [Event.insert 7, Event.count 7] 7 false ∧
    (run_ops brokenQS false true () (IStream.ofString "7 -1 7 -1")).exitCode = 1 ∧
    (run_ops treeQS false true binary_tree.empty
        (IStream.ofString "7 -1 7 -1")).exitCode = 0 := by
  have hcond : (true && (Q.count st.qs v != st.us.contains v)) = true := by
    simp only [Bool.true_and]
    exact bne_iff_ne.mpr hne
  have e : replay Q debug true (v :: rest) st =
      Outcome.fail [] [Event.count v] v (Q.count st.qs v) := by
    rw [replay, stepVal, if_pos h0, hm]
    rw [if_neg (by simp), if_pos hcond]
  refine ⟨⟨e, ?_⟩, rfl, rfl, rfl⟩
  rw [e]
  rfl


/-- Witness for C8: the broken structure mismatching on a query of 7. -/
theorem C8_validation_abort_witness :
    (replay brokenQS false true (7 :: []) ⟨(), [7], false⟩ =
        Outcome.fail [] [Event.count 7] 7 (brokenQS.count () 7) ∧
      (replay brokenQS false true (7 :: []) ⟨(), [7], false⟩).exitCode = 1) ∧
    run_ops brokenQS false true () (IStream.ofString "7 -1 7 -1") =
        Outcome.fail [] [Event.insert 7, Event.count 7] 7 false ∧
    (run_ops brokenQS false true () (IStream.ofString "7 -1 7 -1")).exitCode = 1 ∧
    (run_ops treeQS false true binary_tree.empty
        (IStream.ofString "7 -1 7 -1")).exitCode = 0 :=
  C8_validation_abort brokenQS false ⟨(), [7], false⟩ 7 [] (by decide) rfl
    (by decide)

/--
C9: with validation enabled and debug disabled, a query whose cross-check
passes still emits its 0/1 result line to the primary output stream, and
`count` is invoked on the structure under test twice for that query: once
for the validation comparison and once for the emitted result.
-/
theorem C9_validated_query_emits {σ : Type} (Q : QS σ) (st : RunState σ)
    (v : Int) (rest : List Int) (h0 : 0 ≤ v) (hm : st.mode = false)
    (heq : Q.count st.qs v = st.us.contains v) :
    replay Q false true (v :: rest) st =
      Outcome.prepend [Q.count st.qs v] [Event.count v, Event.count v]
        (replay Q false true rest st) := by
  simp [replay, stepVal, h0, hm, heq]

/-- Witness for C9: validated query of 7 against the tree built from `[7]`. -/
theorem C9_validated_query_emits_witness :
    replay treeQS false true (7 :: [])
        ⟨binary_tree.empty.insertAll [7], [7], false⟩ =
      Outcome.prepend [treeQS.count (binary_tree.empty.insertAll [7]) 7]
        [Event.count 7, Event.count 7]
        (replay treeQS false true []
          ⟨binary_tree.empty.insertAll [7], [7], false⟩) :=
  C9_validated_query_emits treeQS ⟨binary_tree.empty.insertAll [7], [7], false⟩
    7 [] (by decide) rfl (by decide)

/--
C10: destroying a tree built from `N` distinct values releases exactly the
`N` stored values, each exactly once: the postorder teardown sequence is a
duplicate-free permutation of the inserted values, of length `N`.
-/
theorem C10_teardown_exact (vs : List Int) (h : vs.Nodup) :
    ((binary_tree.empty.insertAll vs).root.destroySeq).Perm vs ∧
      ((binary_tree.empty.insertAll vs).root.destroySeq).Nodup ∧
      ((binary_tree.empty.insertAll vs).root.destroySeq).length = vs.length := by
  have hb : NodePtr.isBST (binary_tree.empty.insertAll vs).root = true :=
    binary_tree.insertAll_isBST binary_tree.empty vs rfl
  have hnd : ((binary_tree.empty.insertAll vs).root.toList).Nodup :=
    NodePtr.isBST_nodup _ hb
  have hmem : ∀ x : Int,
      x ∈ (binary_tree.empty.insertAll vs).root.toList ↔ x ∈ vs := by
    intro x
    rw [binary_tree.mem_toList_insertAll]
    simp [binary_tree.empty, NodePtr.toList]
  have hperm : ((binary_tree.empty.insertAll vs).root.destroySeq).Perm vs :=
    (NodePtr.destroySeq_perm_toList _).trans
      ((List.perm_ext_iff_of_nodup hnd h).mpr hmem)
  exact ⟨hperm, hperm.symm.nodup h, hperm.length_eq⟩

/-- Witness for C10: the three distinct values `[2, 1, 3]`. -/
theorem C10_teardown_exact_witness :
    ((binary_tree.empty.insertAll [2, 1, 3]).root.destroySeq).Perm [2, 1, 3] ∧
      ((binary_tree.empty.insertAll [2, 1, 3]).root.destroySeq).Nodup ∧
      ((binary_tree.empty.insertAll [2, 1, 3]).root.destroySeq).length =
        ([2, 1, 3] : List Int).length :=
  C10_teardown_exact [2, 1, 3] (by decide)

end pfp
